import Mathlib

/-!
# Verification of the stingray base/utils specification

Shallow embedding of `stingray/base.py` and `stingray/utils.py` over exact
rational arithmetic (`ℚ` stands for the Python floats; every operation the
claims exercise is an order comparison, addition, multiplication or division,
where float rounding plays no role).

Conventions:
* Python lists / 1-d numpy arrays become `List ℚ`;
* fallible Python code (raised exceptions) returns `Except String α`, the
  string carrying the exception kind and message;
* `np.arange`, `int()` and Python slice-sums are modelled by `npArange`,
  `pyInt` and `Finset.Ico` sums with the numpy/Python semantics.
-/

deriving instance DecidableEq for Except

/-- Python `int(q)` for a nonnegative rational (truncation = floor there). -/
def pyInt (q : ℚ) : ℕ := (⌊q⌋).toNat

/-- Embedding of `np.arange start stop step`: the empty array unless
`0 < step ∧ start < stop`, otherwise `start, start+step, …` with
`⌈(stop-start)/step⌉` elements (numpy's length formula for a positive step). -/
def npArange (start stop step : ℚ) : List ℚ :=
  if 0 < step ∧ start < stop then
    (List.range (⌈(stop - start) / step⌉).toNat).map (fun i : ℕ => start + (i : ℚ) * step)
  else []

/-! Small evaluation helpers: `Rat` arithmetic inside `⌈⌉`/`⌊⌋` does not
reduce definitionally, so concrete floors and ceilings are discharged through
these bracketing lemmas plus `norm_num`. -/

lemma ceil_eval {a : ℚ} {z : ℤ} (h1 : (z : ℚ) - 1 < a) (h2 : a ≤ (z : ℚ)) : ⌈a⌉ = z :=
  Int.ceil_eq_iff.mpr ⟨h1, h2⟩

lemma floor_eval {a : ℚ} {z : ℤ} (h1 : (z : ℚ) ≤ a) (h2 : a < (z : ℚ) + 1) : ⌊a⌋ = z :=
  Int.floor_eq_iff.mpr ⟨h1, h2⟩

lemma pyInt_eval {a : ℚ} {n : ℕ} (h1 : (n : ℚ) ≤ a) (h2 : a < (n : ℚ) + 1) : pyInt a = n := by
  rw [pyInt, floor_eval (z := (n : ℤ)) (by push_cast; exact h1) (by push_cast; exact h2)]
  simp

/-! ## utils.time_intervals_from_gtis -/

def noGtiMsg : String := "AssertionError: No GTIs are equal to or longer than chunk_length."

/-- Embedding of `utils.time_intervals_from_gtis`: for every GTI `g` that is
not shorter than `chunk_length`, append
`np.arange(g[0], g[1] - chunk_length, chunk_length)` to the start times;
assert the collected list is non-empty; return the starts and the starts
shifted by `chunk_length`. -/
def time_intervals_from_gtis (gtis : List (ℚ × ℚ)) (chunk_length : ℚ) :
    Except String (List ℚ × List ℚ) :=
  let spectrum_start_times := gtis.foldl
    (fun acc g =>
      if g.2 - g.1 < chunk_length then acc
      else acc ++ npArange g.1 (g.2 - chunk_length) chunk_length)
    []
  if 0 < spectrum_start_times.length then
    .ok (spectrum_start_times, spectrum_start_times.map (· + chunk_length))
  else .error noGtiMsg

/-- C2 (code_bug evidence): a single GTI exactly as long as `chunk_length`
passes the `g[1] - g[0] < chunk_length` filter, yet
`np.arange(g[0], g[1] - chunk_length, chunk_length)` is empty, so
`time_intervals_from_gtis [[0, 1]] 1` hits the assertion and fails with
"No GTIs are equal to or longer than chunk_length." even though one GTI is
exactly equal — instead of returning the non-empty start/stop arrays that the
claim (and the assertion's own message) promises. -/
theorem time_intervals_equal_gti_asserts :
    time_intervals_from_gtis [((0 : ℚ), (1 : ℚ))] 1 = .error noGtiMsg := by
  norm_num [time_intervals_from_gtis, npArange]

/-! ## utils.rebin_data -/

def unrecognizedMethodMsg : String :=
  "UnrecognizedMethod: Method for summing or averaging not recognized. Please enter either sum or mean."

def rebinAssertMsg : String :=
  "AssertionError: New frequency resolution must be larger than old frequency resolution."

/-- One iteration of the binning loop of `utils.rebin_data` at loop value `i`:
`prev_frac * y[int(i)]`, plus the fractional next bin when
`i + step_size < len(x)`, plus `sum(y[int(i+1):int(i+step_size)])` (Python
slices clamp at `len y`, hence the `min`). -/
def rebin_chunk (y : List ℚ) (xlen : ℕ) (step_size i : ℚ) : ℚ :=
  let int_i := pyInt i
  let prev_frac := (int_i : ℚ) + 1 - i
  let base := prev_frac * y.getD int_i 0
  let nextPart :=
    if i + step_size < (xlen : ℚ) then
      (i + step_size - (pyInt (i + step_size) : ℚ)) * y.getD (pyInt (i + step_size)) 0
    else 0
  base + nextPart +
    ∑ j in Finset.Ico (pyInt (i + 1)) (min (pyInt (i + step_size)) y.length), y.getD j 0

/-- Embedding of `utils.rebin_data`. Mirrors the source line by line:
`dx_old = x[1] - x[0]` (IndexError when `x` has fewer than two entries), the
assertion `dx_new >= dx_old`, the binning loop over
`np.arange(0, len(y), step_size)`, the method dispatch (the mean family
`["mean", "avg", "average", "arithmetic mean"]` first, then `"sum"`, else
`UnrecognizedMethod`), the drop of the trailing bin when
`(tseg / dx_new) % 1 > 0` with `tseg = x[-1] - x[0] + dx_old`, and the
`xbin` grid. Returns the triple `(xbin, ybin, step_size)`. -/
def rebin_data (x y : List ℚ) (dx_new : ℚ) (method : String) :
    Except String (List ℚ × List ℚ × ℚ) :=
  if 2 ≤ x.length then
    let dx_old := x.getD 1 0 - x.getD 0 0
    if dx_old ≤ dx_new then
      let step_size := dx_new / dx_old
      let output := (npArange 0 (y.length : ℚ) step_size).map (rebin_chunk y x.length step_size)
      let ybinE : Except String (List ℚ) :=
        if method = "mean" ∨ method = "avg" ∨ method = "average" ∨
            method = "arithmetic mean" then
          .ok (output.map (· / step_size))
        else if method = "sum" then .ok output
        else .error unrecognizedMethodMsg
      match ybinE with
      | .error e => .error e
      | .ok ybin0 =>
        let tseg := x.getLastD 0 - x.getD 0 0 + dx_old
        let ybin := if 0 < tseg / dx_new - ⌊tseg / dx_new⌋ then ybin0.dropLast else ybin0
        let xbin := (List.range ybin.length).map
          (fun k : ℕ => (k : ℚ) * dx_new + x.getD 0 0 - dx_old + dx_new)
        .ok (xbin, ybin, step_size)
    else .error rebinAssertMsg
  else .error "IndexError: list index out of range"

/-- Shared evaluation of the spec's worked example on the `"sum"` method:
`rebin_data([0,1,2,3], [1,1,1,1], 2, "sum") = ([1,3], [2,2], 2)`. -/
lemma rebin_example_sum :
    rebin_data [0, 1, 2, 3] [1, 1, 1, 1] 2 "sum" = .ok ([1, 3], [2, 2], 2) := by
  rw [rebin_data]
  norm_num
  rw [if_neg (by decide)]
  rw [show npArange 0 4 2 = [0, 2] by
    rw [npArange, if_pos (by norm_num)]
    rw [show (⌈((4:ℚ) - 0) / 2⌉ : ℤ) = 2 from ceil_eval (by norm_num) (by norm_num)]
    simp [List.range_succ]]
  simp only [List.map_cons, List.map_nil]
  rw [show rebin_chunk [1, 1, 1, 1] 4 2 0 = 2 by
    rw [rebin_chunk]
    rw [pyInt_eval (a := (0:ℚ)) (n := 0) (by norm_num) (by norm_num),
        pyInt_eval (a := (0:ℚ) + 2) (n := 2) (by norm_num) (by norm_num),
        pyInt_eval (a := (0:ℚ) + 1) (n := 1) (by norm_num) (by norm_num)]
    norm_num [Finset.sum_Ico_eq_sum_range]]
  rw [show rebin_chunk [1, 1, 1, 1] 4 2 2 = 2 by
    rw [rebin_chunk]
    rw [pyInt_eval (a := (2:ℚ)) (n := 2) (by norm_num) (by norm_num),
        pyInt_eval (a := (2:ℚ) + 2) (n := 4) (by norm_num) (by norm_num),
        pyInt_eval (a := (2:ℚ) + 1) (n := 3) (by norm_num) (by norm_num)]
    norm_num [Finset.sum_Ico_eq_sum_range]]
  norm_num [List.range_succ]

/-- C8 (counterexample to the claim as stated): the method string `"avg"` is
not in the claim's accepted set {"sum", "mean", "average", "arithmetic mean"},
yet `rebin_data` accepts it (the source checks
`method in ['mean', 'avg', 'average', 'arithmetic mean']`) and returns the
averaged bins instead of raising `UnrecognizedMethod`. -/
theorem rebin_avg_accepted_cex :
    rebin_data [0, 1, 2, 3] [1, 1, 1, 1] 2 "avg" = .ok ([1, 3], [1, 1], 2) := by
  rw [rebin_data]
  norm_num
  rw [show npArange 0 4 2 = [0, 2] by
    rw [npArange, if_pos (by norm_num)]
    rw [show (⌈((4:ℚ) - 0) / 2⌉ : ℤ) = 2 from ceil_eval (by norm_num) (by norm_num)]
    simp [List.range_succ]]
  simp only [List.map_cons, List.map_nil, Function.comp_apply]
  rw [show rebin_chunk [1, 1, 1, 1] 4 2 0 = 2 by
    rw [rebin_chunk]
    rw [pyInt_eval (a := (0:ℚ)) (n := 0) (by norm_num) (by norm_num),
        pyInt_eval (a := (0:ℚ) + 2) (n := 2) (by norm_num) (by norm_num),
        pyInt_eval (a := (0:ℚ) + 1) (n := 1) (by norm_num) (by norm_num)]
    norm_num [Finset.sum_Ico_eq_sum_range]]
  rw [show rebin_chunk [1, 1, 1, 1] 4 2 2 = 2 by
    rw [rebin_chunk]
    rw [pyInt_eval (a := (2:ℚ)) (n := 2) (by norm_num) (by norm_num),
        pyInt_eval (a := (2:ℚ) + 2) (n := 4) (by norm_num) (by norm_num),
        pyInt_eval (a := (2:ℚ) + 1) (n := 3) (by norm_num) (by norm_num)]
    norm_num [Finset.sum_Ico_eq_sum_range]]
  norm_num [List.range_succ]

/-- C8 (amended): `rebin_data` recognizes exactly the method strings
`"sum"`, `"mean"`, `"avg"`, `"average"` and `"arithmetic mean"`.  The
hypotheses confine the statement to inputs on which the binning itself runs
in the source — at least two `x` samples, `y` as long as `x` (otherwise
`y[next_bin]` raises IndexError before the dispatch), and
`0 < x[1] - x[0] ≤ dx_new` (otherwise `dx_new / dx_old` raises
ZeroDivisionError); on that region every index of the loop is in range and
the embedding coincides with the source, the dispatch fails with the
distinct `UnrecognizedMethod` error precisely for every method string
outside the accepted set, and every accepted method string returns a
result. -/
theorem rebin_method_recognition (x y : List ℚ) (dx_new : ℚ) (method : String)
    (h2 : 2 ≤ x.length) (_hlen : y.length = x.length)
    (_h0 : 0 < x.getD 1 0 - x.getD 0 0) (hd : x.getD 1 0 - x.getD 0 0 ≤ dx_new) :
    (rebin_data x y dx_new method = .error unrecognizedMethodMsg ↔
      method ∉ ["sum", "mean", "avg", "average", "arithmetic mean"]) ∧
    (method ∈ ["sum", "mean", "avg", "average", "arithmetic mean"] →
      ∃ r, rebin_data x y dx_new method = .ok r) := by
  rw [rebin_data, if_pos h2]
  dsimp only []
  rw [if_pos hd]
  by_cases hm : method = "mean" ∨ method = "avg" ∨ method = "average" ∨
      method = "arithmetic mean"
  · rw [if_pos hm]
    constructor
    · refine iff_of_false (by simp) (not_not_intro ?_)
      rcases hm with h | h | h | h <;> simp [h]
    · intro _
      exact ⟨_, rfl⟩
  · rw [if_neg hm]
    by_cases hs : method = "sum"
    · rw [if_pos hs]
      constructor
      · exact iff_of_false (by simp) (not_not_intro (by simp [hs]))
      · intro _
        exact ⟨_, rfl⟩
    · rw [if_neg hs]
      constructor
      · refine iff_of_true rfl ?_
        push_neg at hm
        simp only [List.mem_cons, List.not_mem_nil, or_false, not_or]
        exact ⟨hs, hm.1, hm.2.1, hm.2.2.1, hm.2.2.2⟩
      · intro hmem
        exfalso
        simp only [List.mem_cons, List.not_mem_nil, or_false] at hmem
        rcases hmem with h | h | h | h | h
        · exact hs h
        · exact hm (Or.inl h)
        · exact hm (Or.inr (Or.inl h))
        · exact hm (Or.inr (Or.inr (Or.inl h)))
        · exact hm (Or.inr (Or.inr (Or.inr h)))

/-- C8 witness: instantiating `rebin_method_recognition` at the unrecognized
method string `"bogus"` over `x = [0,1,2,3]`, `y = [1,1,1,1]`, `dx_new = 2`
(equal lengths, `x[1] - x[0] = 1 > 0`) shows the call fails with the
`UnrecognizedMethod` error. -/
theorem rebin_method_recognition_witness :
    rebin_data [0, 1, 2, 3] [1, 1, 1, 1] 2 "bogus" = .error unrecognizedMethodMsg :=
  (rebin_method_recognition [0, 1, 2, 3] [1, 1, 1, 1] 2 "bogus"
    (by norm_num) (by norm_num) (by norm_num) (by norm_num)).1.mpr (by decide)

/-- C10: `rebin_data` returns a triple whose third component is always
`dx_new / (x[1] - x[0])` — the `step_size` — whatever the method string was;
and the precondition `dx_new ≥ x[1] - x[0]` is enforced by the assertion
before any binning happens (an `AssertionError` when it fails). -/
theorem rebin_data_triple_step :
    (∀ (x y : List ℚ) (dx_new : ℚ) (method : String) (xbin ybin : List ℚ) (s : ℚ),
        rebin_data x y dx_new method = .ok (xbin, ybin, s) →
        s = dx_new / (x.getD 1 0 - x.getD 0 0)) ∧
    (∀ (x y : List ℚ) (dx_new : ℚ) (method : String),
        2 ≤ x.length → ¬ (x.getD 1 0 - x.getD 0 0 ≤ dx_new) →
        rebin_data x y dx_new method = .error rebinAssertMsg) := by
  constructor
  · intro x y dxn m xbin ybin s h
    rw [rebin_data] at h
    by_cases h2 : 2 ≤ x.length
    · rw [if_pos h2] at h
      dsimp only [] at h
      by_cases hd : x.getD 1 0 - x.getD 0 0 ≤ dxn
      · rw [if_pos hd] at h
        by_cases hm : m = "mean" ∨ m = "avg" ∨ m = "average" ∨ m = "arithmetic mean"
        · rw [if_pos hm] at h
          simp only [Except.ok.injEq, Prod.mk.injEq] at h
          exact h.2.2.symm
        · rw [if_neg hm] at h
          by_cases hs : m = "sum"
          · rw [if_pos hs] at h
            simp only [Except.ok.injEq, Prod.mk.injEq] at h
            exact h.2.2.symm
          · rw [if_neg hs] at h
            cases h
      · rw [if_neg hd] at h
        cases h
    · rw [if_neg h2] at h
      cases h
  · intro x y dxn m h2 hd
    rw [rebin_data, if_pos h2]
    dsimp only []
    rw [if_neg hd]

/-- C10 witness: on the worked example, `rebin_data_triple_step` yields that
the third returned component `2` equals `dx_new / (x[1] - x[0]) = 2 / (1 - 0)`. -/
theorem rebin_data_triple_step_witness :
    (2 : ℚ) = 2 / (([(0:ℚ), 1, 2, 3].getD 1 0) - ([(0:ℚ), 1, 2, 3].getD 0 0)) :=
  rebin_data_triple_step.1 [0, 1, 2, 3] [1, 1, 1, 1] 2 "sum" [1, 3] [2, 2] 2
    rebin_example_sum

/-! ## C7: fractional-overlap coverage of the sum method

`bin_weight`/`cover_total` are the spec-side notion ("each output bin is the
sum of the input samples it covers, apportioning boundary samples linearly by
fractional overlap"), written independently of the loop in the code; the
theorem identifies the code's loop values with them. -/

/-- Overlap length of input sample `j` (which covers `[j, j+1)` of the index
axis) with the output window `[a, b)`. -/
def bin_weight (j : ℕ) (a b : ℚ) : ℚ := max 0 (min ((j : ℚ) + 1) b - max (j : ℚ) a)

/-- Spec-side value of an output bin over the window `[a, b)`: every input
sample weighted by its fractional overlap with the window. -/
def cover_total (y : List ℚ) (a b : ℚ) : ℚ :=
  ∑ j in Finset.range y.length, bin_weight j a b * y.getD j 0

lemma getD_map_range {n k : ℕ} (f : ℕ → ℚ) (h : k < n) :
    ((List.range n).map f).getD k 0 = f k := by
  rw [List.getD_eq_getElem _ _ (by simp [h])]
  simp

lemma getLastD_map_range {n : ℕ} (f : ℕ → ℚ) (h : 1 ≤ n) :
    ((List.range n).map f).getLastD 0 = f (n - 1) := by
  rw [List.getLastD_eq_getLast?, List.getLast?_eq_getElem?]
  rw [List.getElem?_eq_getElem (by simp; omega)]
  simp

lemma getD_dropLast {l : List ℚ} {k : ℕ} (h : k < l.length - 1) :
    l.dropLast.getD k 0 = l.getD k 0 := by
  rw [List.dropLast_eq_take]
  rw [List.getD_eq_getElem _ _ (by simp; omega)]
  rw [List.getD_eq_getElem _ _ (by omega)]
  simp [List.getElem_take]

lemma pyInt_cast {a : ℚ} (h : 0 ≤ a) : ((pyInt a : ℕ) : ℚ) = ((⌊a⌋ : ℤ) : ℚ) := by
  rw [pyInt]
  have h2 : (⌊a⌋.toNat : ℤ) = ⌊a⌋ := Int.toNat_of_nonneg (Int.floor_nonneg.mpr h)
  exact_mod_cast congrArg (fun z : ℤ => (z : ℚ)) h2

lemma pyInt_le {a : ℚ} (h : 0 ≤ a) : ((pyInt a : ℕ) : ℚ) ≤ a := by
  rw [pyInt_cast h]
  exact Int.floor_le a

lemma lt_pyInt_add_one {a : ℚ} (h : 0 ≤ a) : a < (pyInt a : ℕ) + 1 := by
  rw [pyInt_cast h]
  exact Int.lt_floor_add_one a

lemma pyInt_add_one {a : ℚ} (h : 0 ≤ a) : pyInt (a + 1) = pyInt a + 1 := by
  rw [pyInt, pyInt, Int.floor_add_one]
  have := Int.floor_nonneg.mpr h
  omega

/-- Central coverage lemma: one iteration of the binning loop at loop value
`i` computes exactly the fractional-overlap total of the window
`[i, i + step)`, provided the new bin is at least as wide as the old one
(`1 ≤ step`) and the loop value is in range. -/
lemma rebin_chunk_eq_cover (y : List ℚ) (step i : ℚ)
    (hstep : 1 ≤ step) (hi : 0 ≤ i) (hiN : i < (y.length : ℚ)) :
    rebin_chunk y y.length step i = cover_total y i (i + step) := by
  have hstep0 : (0:ℚ) < step := lt_of_lt_of_le one_pos hstep
  have his : (0:ℚ) ≤ i + step := by linarith
  rw [rebin_chunk]
  rw [pyInt_add_one hi]
  set N := y.length with hN
  set p := pyInt i with hp
  set q := pyInt (i + step) with hq
  have hp1 : (p : ℚ) ≤ i := pyInt_le hi
  have hp2 : i < (p : ℚ) + 1 := lt_pyInt_add_one hi
  have hq1 : (q : ℚ) ≤ i + step := pyInt_le his
  have hq2 : i + step < (q : ℚ) + 1 := lt_pyInt_add_one his
  have hpq : p + 1 ≤ q := by
    have h1 : (⌊i⌋ + 1 : ℤ) ≤ ⌊i + step⌋ := by
      rw [← Int.floor_add_one]
      exact Int.floor_le_floor (by linarith)
    have h2 : (0:ℤ) ≤ ⌊i⌋ := Int.floor_nonneg.mpr hi
    rw [hp, hq, pyInt, pyInt]
    omega
  have hpqQ : (p : ℚ) + 1 ≤ (q : ℚ) := by exact_mod_cast hpq
  have hpN : p < N := by exact_mod_cast lt_of_le_of_lt hp1 hiN
  have hiff : (i + step < (N : ℚ)) ↔ q < N := by
    constructor
    · intro hb
      exact_mod_cast lt_of_le_of_lt hq1 hb
    · intro hqN
      have : (q : ℚ) + 1 ≤ (N : ℚ) := by exact_mod_cast hqN
      linarith
  have key : ∀ j ∈ Finset.range N, bin_weight j i (i + step) * y.getD j 0 =
      (if j = p then ((p:ℚ) + 1 - i) * y.getD p 0 else 0) +
      ((if p + 1 ≤ j ∧ j < min q N then y.getD j 0 else 0) +
       (if j = q ∧ q < N then (i + step - (q:ℚ)) * y.getD q 0 else 0)) := by
    intro j hj
    rw [Finset.mem_range] at hj
    rcases lt_trichotomy j p with hjp | rfl | hjp
    · have hj1 : (j : ℚ) + 1 ≤ (p : ℚ) := by exact_mod_cast hjp
      rw [if_neg (by omega), if_neg (by omega), if_neg (by omega)]
      rw [bin_weight,
          max_eq_right (a := (j:ℚ)) (b := i) (by linarith),
          min_eq_left (a := (j:ℚ) + 1) (b := i + step) (by linarith),
          max_eq_left (a := (0:ℚ)) (b := (j:ℚ) + 1 - i) (by linarith)]
      ring
    · rw [if_pos rfl, if_neg (by omega), if_neg (by omega)]
      rw [bin_weight,
          max_eq_right (a := (p:ℚ)) (b := i) hp1,
          min_eq_left (a := (p:ℚ) + 1) (b := i + step) (by linarith),
          max_eq_right (a := (0:ℚ)) (b := (p:ℚ) + 1 - i) (by linarith)]
      ring
    · have hj0 : (p : ℚ) + 1 ≤ (j : ℚ) := by exact_mod_cast hjp
      rcases lt_trichotomy j q with hjq | rfl | hjq
      · have hj2 : (j : ℚ) + 1 ≤ (q : ℚ) := by exact_mod_cast hjq
        rw [if_neg (by omega), if_pos (by omega), if_neg (by omega)]
        rw [bin_weight,
            max_eq_left (a := (j:ℚ)) (b := i) (by linarith),
            min_eq_left (a := (j:ℚ) + 1) (b := i + step) (by linarith),
            max_eq_right (a := (0:ℚ)) (b := (j:ℚ) + 1 - (j:ℚ)) (by linarith)]
        ring
      · rw [if_neg (by omega), if_neg (by omega), if_pos ⟨rfl, hj⟩]
        rw [bin_weight,
            max_eq_left (a := (q:ℚ)) (b := i) (by linarith),
            min_eq_right (a := (q:ℚ) + 1) (b := i + step) (le_of_lt hq2),
            max_eq_right (a := (0:ℚ)) (b := i + step - (q:ℚ)) (by linarith)]
        ring
      · have hj3 : (q : ℚ) + 1 ≤ (j : ℚ) := by exact_mod_cast hjq
        rw [if_neg (by omega), if_neg (by omega), if_neg (by omega)]
        rw [bin_weight,
            max_eq_left (a := (j:ℚ)) (b := i) (by linarith),
            min_eq_right (a := (j:ℚ) + 1) (b := i + step) (by linarith),
            max_eq_left (a := (0:ℚ)) (b := i + step - (j:ℚ)) (by linarith)]
        ring
  rw [cover_total]
  rw [Finset.sum_congr rfl key, Finset.sum_add_distrib, Finset.sum_add_distrib]
  rw [Finset.sum_ite_eq' (Finset.range N) p (fun _ => ((p:ℚ) + 1 - i) * y.getD p 0),
      if_pos (Finset.mem_range.mpr hpN)]
  rw [← Finset.sum_filter]
  have hIco : (Finset.range N).filter (fun j => p + 1 ≤ j ∧ j < min q N) =
      Finset.Ico (p + 1) (min q N) := by
    ext j
    simp only [Finset.mem_filter, Finset.mem_range, Finset.mem_Ico]
    omega
  rw [hIco]
  by_cases hqN : q < N
  · rw [if_pos (hiff.mpr hqN)]
    simp only [eq_true hqN, and_true]
    rw [Finset.sum_ite_eq' (Finset.range N) q (fun _ => (i + step - (q:ℚ)) * y.getD q 0),
        if_pos (Finset.mem_range.mpr hqN)]
    ring
  · rw [if_neg (fun hb => hqN (hiff.mp hb))]
    simp only [eq_false hqN, and_false, if_false]
    rw [Finset.sum_const_zero]
    ring

/-- C7: `rebin_data([0,1,2,3], [1,1,1,1], 2, "sum")` sums adjacent pairs into
`[2, 2]`; and in general, over a uniformly sampled grid with old width `dx`
and `dx_new ≥ dx`, the `"sum"` method returns bins each equal to the
fractional-overlap total of the input samples its window covers
(`cover_total`), with the trailing partial bin dropped exactly when the total
span `n·dx` is not a whole multiple of `dx_new` — leaving
`⌊n·dx/dx_new⌋` bins. -/
theorem rebin_sum_coverage :
    rebin_data [0, 1, 2, 3] [1, 1, 1, 1] 2 "sum" = .ok ([1, 3], [2, 2], 2) ∧
    ∀ (x0 dx dx_new : ℚ) (n : ℕ) (y : List ℚ),
      2 ≤ n → 0 < dx → dx ≤ dx_new → y.length = n →
      ∃ xbin ybin : List ℚ,
        rebin_data ((List.range n).map (fun i : ℕ => x0 + (i : ℚ) * dx)) y dx_new "sum" =
          .ok (xbin, ybin, dx_new / dx) ∧
        ybin.length = (⌊(n : ℚ) * dx / dx_new⌋).toNat ∧
        ∀ k : ℕ, k < ybin.length →
          ybin.getD k 0 =
            cover_total y ((k : ℚ) * (dx_new / dx)) ((k : ℚ) * (dx_new / dx) + dx_new / dx) := by
  refine ⟨rebin_example_sum, ?_⟩
  intro x0 dx dxn n y hn hdx hdd hyl
  have hnQ : (2 : ℚ) ≤ (n : ℚ) := by exact_mod_cast hn
  have hdxn : (0:ℚ) < dxn := lt_of_lt_of_le hdx hdd
  set x : List ℚ := (List.range n).map (fun i : ℕ => x0 + (i : ℚ) * dx) with hx
  have hxlen : x.length = n := by simp [hx]
  have hx0 : x.getD 0 0 = x0 := by
    rw [hx, getD_map_range _ (by omega)]
    push_cast
    ring
  have hx1 : x.getD 1 0 = x0 + dx := by
    rw [hx, getD_map_range _ (by omega)]
    push_cast
    ring
  have hdxold : x.getD 1 0 - x.getD 0 0 = dx := by rw [hx0, hx1]; ring
  have hlast : x.getLastD 0 = x0 + ((n:ℚ) - 1) * dx := by
    rw [hx, getLastD_map_range _ (by omega)]
    have h1 : 1 ≤ n := by omega
    push_cast [Nat.cast_sub h1]
    ring
  set step := dxn / dx with hstepdef
  have hstep1 : 1 ≤ step := (one_le_div hdx).mpr hdd
  have hstep0 : (0:ℚ) < step := lt_of_lt_of_le one_pos hstep1
  set z := (n : ℚ) / step with hzdef
  have hz_eq : (n : ℚ) * dx / dxn = z := by
    rw [hzdef, hstepdef]
    field_simp
  have hz0 : (0:ℚ) < z := div_pos (by linarith) hstep0
  have hfl0 : (0:ℤ) ≤ ⌊z⌋ := Int.floor_nonneg.mpr (le_of_lt hz0)
  have hstepn : z * step = (n : ℚ) := div_mul_cancel₀ _ (ne_of_gt hstep0)
  -- evaluate the branches of rebin_data
  rw [rebin_data, if_pos (by rw [hxlen]; omega)]
  dsimp only []
  rw [hdxold, ← hstepdef, if_pos hdd]
  rw [if_neg (by decide :
        ¬("sum" = "mean" ∨ "sum" = "avg" ∨ "sum" = "average" ∨ "sum" = "arithmetic mean")),
      if_pos rfl]
  dsimp only []
  rw [hlast, hx0]
  have htz : (x0 + ((n:ℚ) - 1) * dx - x0 + dx) / dxn = z := by
    rw [← hz_eq]
    ring_nf
  rw [htz]
  have harange : npArange 0 ((y.length : ℕ) : ℚ) step =
      (List.range (⌈z⌉).toNat).map (fun k : ℕ => 0 + (k:ℚ) * step) := by
    rw [npArange, if_pos ⟨hstep0, by rw [hyl]; linarith⟩, hyl, sub_zero, ← hzdef]
  rw [harange, List.map_map]
  simp only [Function.comp_def]
  have hkQ : ∀ k : ℕ, k < (⌈z⌉).toNat → (k : ℚ) * step < (y.length : ℚ) := by
    intro k hk
    have h1 : (k : ℤ) < ⌈z⌉ := Int.lt_toNat.mp hk
    have h2 : ((k : ℤ) : ℚ) + 1 ≤ ((⌈z⌉ : ℤ) : ℚ) := by exact_mod_cast h1
    have h3 : ((⌈z⌉ : ℤ) : ℚ) < z + 1 := Int.ceil_lt_add_one z
    have h4 : (k : ℚ) < z := by push_cast at h2; linarith
    rw [hyl]
    calc (k : ℚ) * step < z * step := by
          exact mul_lt_mul_of_pos_right h4 hstep0
      _ = (n : ℚ) := hstepn
  have houtputD : ∀ k : ℕ, k < (⌈z⌉).toNat →
      ((List.range (⌈z⌉).toNat).map
        (fun k : ℕ => rebin_chunk y x.length step (0 + (k:ℚ) * step))).getD k 0 =
      cover_total y ((k:ℚ) * step) ((k:ℚ) * step + step) := by
    intro k hk
    rw [getD_map_range _ hk, zero_add, hxlen, ← hyl]
    exact rebin_chunk_eq_cover y step ((k:ℚ) * step) hstep1 (by positivity) (hkQ k hk)
  have houtlen : ((List.range (⌈z⌉).toNat).map
      (fun k : ℕ => rebin_chunk y x.length step (0 + (k:ℚ) * step))).length =
      (⌈z⌉).toNat := by simp
  by_cases hfr : (⌊z⌋ : ℚ) < z
  · -- fractional: trailing partial bin dropped
    have hceil : ⌈z⌉ = ⌊z⌋ + 1 := by
      rw [Int.ceil_eq_iff]
      constructor
      · push_cast
        linarith
      · push_cast
        exact le_of_lt (Int.lt_floor_add_one z)
    rw [if_pos (by linarith)]
    refine ⟨_, _, rfl, ?_, ?_⟩
    · rw [hz_eq, List.length_dropLast, houtlen, hceil]
      omega
    · intro k hk
      rw [List.length_dropLast, houtlen] at hk
      rw [getD_dropLast (by rw [houtlen]; omega)]
      exact houtputD k (by omega)
  · -- exact multiple: nothing dropped
    have hzint : (⌊z⌋ : ℚ) = z := le_antisymm (Int.floor_le z) (not_lt.mp hfr)
    have hceil : ⌈z⌉ = ⌊z⌋ := by
      rw [← hzint, Int.ceil_intCast, Int.floor_intCast]
    rw [if_neg (by linarith)]
    refine ⟨_, _, rfl, ?_, ?_⟩
    · rw [hz_eq, houtlen, hceil]
    · intro k hk
      rw [houtlen] at hk
      exact houtputD k hk

/-- C7 witness: the general coverage statement instantiated on the worked
example grid `x0 = 0, dx = 1, dx_new = 2, n = 4, y = [1,1,1,1]`. -/
theorem rebin_sum_coverage_witness :
    ∃ xbin ybin : List ℚ,
      rebin_data ((List.range 4).map (fun i : ℕ => 0 + (i : ℚ) * 1)) [1, 1, 1, 1] 2 "sum" =
        .ok (xbin, ybin, 2 / 1) ∧
      ybin.length = (⌊((4 : ℕ) : ℚ) * 1 / 2⌋).toNat ∧
      ∀ k : ℕ, k < ybin.length →
        ybin.getD k 0 =
          cover_total [1, 1, 1, 1] ((k : ℚ) * (2 / 1)) ((k : ℚ) * (2 / 1) + 2 / 1) :=
  rebin_sum_coverage.2 0 1 2 4 [1, 1, 1, 1] (by norm_num) (by norm_num) (by norm_num)
    (by norm_num)

/-! ## C1: complex column split on write / merge on read

`StingrayObject.write` (for `fmt = None` or ascii formats) splits complex
columns into `<name>.real`/`<name>.imag`; `StingrayObject.read` recombines
them.  Complex scalars are modelled exactly as pairs of rationals. -/

/-- Exact complex scalar. -/
structure Cx where
  re : ℚ
  im : ℚ
deriving DecidableEq

def Cx.add (u v : Cx) : Cx := ⟨u.re + v.re, u.im + v.im⟩

/-- Multiplication by `1j`, as in `new_value = new_value * 1j`. -/
def Cx.mulI (u : Cx) : Cx := ⟨-u.im, u.re⟩

/-- Column names.  The source marks split columns with the reserved suffixes
`".real"` / `".imag"` (tested with `str.endswith`, removed with
`str.replace`); we model a name as its base string plus suffix state, which
is faithful whenever base attribute names do not themselves contain the
reserved suffixes (true of every attribute name in the repository). -/
inductive ColName where
  | plain (s : String)
  | realPart (s : String)
  | imagPart (s : String)
deriving DecidableEq

/-- Test `col.endswith(".real")`. -/
def ColName.endsReal : ColName → Bool
  | .realPart _ => true
  | _ => false

/-- Test `col.endswith(".imag")`. -/
def ColName.endsImag : ColName → Bool
  | .imagPart _ => true
  | _ => false

/-- Compute `col.replace(".real", "").replace(".imag", "")`. -/
def ColName.strip : ColName → ColName
  | .plain s => .plain s
  | .realPart s => .plain s
  | .imagPart s => .plain s

/-- Append the `.real` suffix to a column name, as the writer's f-string
does (the writer only ever suffixes the plain attribute names produced by
`to_astropy_table`). -/
def ColName.addReal : ColName → ColName
  | .plain s => .realPart s
  | c => c

/-- Append the `.imag` suffix to a column name (writer side). -/
def ColName.addImag : ColName → ColName
  | .plain s => .imagPart s
  | c => c

/-- An astropy `Table`, reduced to what the split/merge code touches: an
ordered association list of named columns. -/
abbrev TableM := List (ColName × List Cx)

/-- Column access `ts[col]`, also used for `col in ts.colnames` (first
association wins, as for table columns whose names are unique). -/
def lookupCol : TableM → ColName → Option (List Cx)
  | [], _ => none
  | c :: t, name => if c.1 = name then some c.2 else lookupCol t name

/-- Perform `ts.remove_column(name)`. -/
def removeCol : TableM → ColName → TableM
  | [], _ => []
  | c :: t, name => if c.1 = name then removeCol t name else c :: removeCol t name

/-- Assign `ts[name] = v` for an existing column `name`. -/
def updateCol : TableM → ColName → List Cx → TableM
  | [], _, _ => []
  | c :: t, name, v =>
    if c.1 = name then (c.1, v) :: updateCol t name v else c :: updateCol t name v

/-- Test `np.iscomplex(ts[col][0])`: true iff the imaginary part of the FIRST
element is nonzero — `np.iscomplex` of a complex-dtype value whose imaginary
part is zero is `False`. -/
def iscomplexFirst (vals : List Cx) : Bool :=
  decide ((vals.headD ⟨0, 0⟩).im ≠ 0)

/-- Embedding of the complex-splitting loop of `StingrayObject.write` (run
when `fmt is None or "ascii" in fmt`): iterate over a snapshot of the column
names; every column whose first value `np.iscomplex` reports complex is
removed and replaced by `<name>.real` and `<name>.imag` real columns appended
at the end of the table. -/
def write_split_complex (t : TableM) : TableM :=
  (t.map Prod.fst).foldl
    (fun acc name =>
      match lookupCol acc name with
      | none => acc
      | some vals =>
        if iscomplexFirst vals then
          removeCol acc name ++
            [(name.addReal, vals.map (fun v => ⟨v.re, 0⟩)),
             (name.addImag, vals.map (fun v => ⟨v.im, 0⟩))]
        else acc)
    t

/-- One iteration of the complex-merging loop of `StingrayObject.read`.  The
state carries the table plus the binding of the Python local `is_imag`:
because of the short-circuit in
`(is_real := col.endswith(".real")) or (is_imag := col.endswith(".imag"))`,
`is_imag` is NOT reassigned when `is_real` is true — a `.real` column reads
the stale `is_imag` of an earlier iteration, and a `NameError` occurs if it
was never assigned. -/
def read_merge_step (st : TableM × Option Bool) (name : ColName) :
    Except String (TableM × Option Bool) :=
  let t := st.1
  let is_real := name.endsReal
  let is_imag := if is_real then st.2 else some name.endsImag
  if is_real = false ∧ is_imag = some false then .ok (t, is_imag)
  else
    match lookupCol t name with
    | none => .error "KeyError"
    | some vals =>
      match is_imag with
      | none => .error "NameError: name is_imag is not defined"
      | some b =>
        let new_value := if b then vals.map Cx.mulI else vals
        let col_strip := name.strip
        let t2 :=
          match lookupCol t col_strip with
          | none => t ++ [(col_strip, new_value)]
          | some old => updateCol t col_strip (List.zipWith Cx.add old new_value)
        .ok (removeCol t2 name, is_imag)

/-- The `for col in ts.colnames` loop of `StingrayObject.read`, with the
exception propagation of the loop body made explicit. -/
def read_merge_loop : List ColName → (TableM × Option Bool) → Except String (TableM × Option Bool)
  | [], st => .ok st
  | n :: ns, st =>
    match read_merge_step st n with
    | .error e => .error e
    | .ok st2 => read_merge_loop ns st2

/-- Embedding of the complex-merging passage of `StingrayObject.read` (run
when `fmt is None or "ascii" in fmt`): run the loop over a snapshot of the
column names, `is_imag` initially unbound. -/
def read_merge_complex (t : TableM) : Except String TableM :=
  match read_merge_loop (t.map Prod.fst) (t, none) with
  | .error e => .error e
  | .ok st => .ok st.1

/-- A table holding a complex-valued `flux` column in which only the real
half is nonzero (every imaginary part is zero). -/
def c1_real_table : TableM :=
  [(.plain "time", [⟨0, 0⟩, ⟨1, 0⟩]), (.plain "flux", [⟨1, 0⟩, ⟨2, 0⟩])]

/-- The same table with a genuinely complex first `flux` value. -/
def c1_mixed_table : TableM :=
  [(.plain "time", [⟨0, 0⟩, ⟨1, 0⟩]), (.plain "flux", [⟨1, 1⟩, ⟨2, 0⟩])]

/-- C1 (code_bug evidence): writing a complex `flux` column whose values have
zero imaginary part (`[1+0j, 2+0j]`) does NOT split it — the table is
returned unchanged and no `flux.real` column exists, because the source tests
`np.iscomplex(ts[col][0])`, which is `False` when the imaginary part is zero;
whereas a column whose first value has nonzero imaginary part is split and
recombines exactly through read (third conjunct), as the claim describes. -/
theorem write_no_split_for_zero_imag :
    write_split_complex c1_real_table = c1_real_table ∧
    lookupCol (write_split_complex c1_real_table) (.realPart "flux") = none ∧
    read_merge_complex (write_split_complex c1_mixed_table) = .ok c1_mixed_table := by
  refine ⟨by decide, by decide, ?_⟩
  simp +decide [read_merge_complex, read_merge_loop, read_merge_step, write_split_complex,
    c1_mixed_table, lookupCol, removeCol, updateCol, iscomplexFirst, Cx.add, Cx.mulI,
    ColName.strip, ColName.addReal, ColName.addImag, ColName.endsReal, ColName.endsImag,
    List.zipWith]

/-! ## StingrayTimeseries: apply_mask, split_by_gti, shift, change_mjdref

The reflective attribute classification of `StingrayObject` is modelled over
a fixed schema (the statically-declared form of the shape comparison): `time`
is the main array attribute; `counts` stands for a user-supplied extra array
attribute, which counts as an array attribute exactly when its length equals
`time`'s length (the source's `np.shape` comparison); `mjdref`, `gti`,
`notes` and `dt` are the meta attributes the claims touch. -/

structure TS where
  time : List ℚ
  counts : Option (List ℚ)
  mjdref : ℚ
  gti : Option (List (ℚ × ℚ))
  notes : String
  dt : ℚ
deriving DecidableEq

/-- Whether `counts` is an array attribute: its shape equals `time`'s shape. -/
def TS.countsIsArray (ts : TS) : Bool :=
  match ts.counts with
  | none => false
  | some l => decide (l.length = ts.time.length)

/-- Embedding of `StingrayObject.array_attrs` over the fixed schema (`dir()` enumerates
attributes alphabetically, so `counts` precedes `time`). -/
def TS.array_attrs (ts : TS) : List String :=
  (if ts.countsIsArray then ["counts"] else []) ++ ["time"]

/-- Boolean-mask indexing `arr[mask]` of numpy. -/
def maskList (l : List ℚ) (mask : List Bool) : List ℚ :=
  ((l.zip mask).filter (fun p => p.2)).map Prod.fst

/-- Embedding of `StingrayTimeseries.apply_mask`: `filtered_attrs` defaults
to all array attributes and always receives `"time"`; in-place mode nulls the
array attributes left outside `filtered_attrs` on the object itself, while
non-in-place mode builds a fresh instance (array attributes unset) and copies
every meta attribute (deep copy = value copy here); finally each filtered
attribute is replaced by its masked copy taken from the source object. -/
def TS.apply_mask (ts : TS) (mask : List Bool) (inplace : Bool)
    (filtered_attrs : Option (List String)) : TS :=
  let all_attrs := ts.array_attrs
  let fa0 := filtered_attrs.getD all_attrs
  let fa := if "time" ∈ fa0 then fa0 else fa0 ++ ["time"]
  let base :=
    if inplace then
      if "counts" ∈ all_attrs ∧ "counts" ∉ fa then { ts with counts := none } else ts
    else
      { time := [], counts := if ts.countsIsArray then none else ts.counts,
        mjdref := ts.mjdref, gti := ts.gti, notes := ts.notes, dt := ts.dt }
  let withCounts :=
    if "counts" ∈ fa then { base with counts := ts.counts.map (fun l => maskList l mask) }
    else base
  { withCounts with time := maskList ts.time mask }

lemma maskList_all_true (l : List ℚ) (n : ℕ) (h : l.length ≤ n) :
    maskList l (List.replicate n true) = l := by
  induction l generalizing n with
  | nil => simp [maskList]
  | cons a t ih =>
    cases n with
    | zero => simp at h
    | succ m =>
      rw [List.replicate_succ]
      have ht := ih m (by simpa using h)
      simp only [maskList] at ht ⊢
      simp [ht]

/-- C4: applying an all-`True` mask of length `len(ts.time)` — with the
default `filtered_attrs = None` — returns an object equal to the original in
every array attribute and every meta attribute, in both the in-place and the
copying mode. -/
theorem apply_mask_all_true_id (ts : TS) (inplace : Bool) :
    ts.apply_mask (List.replicate ts.time.length true) inplace none = ts := by
  rcases ts with ⟨t, c, m, g, no, d⟩
  rcases c with _ | l
  · cases inplace <;>
      simp [TS.apply_mask, TS.array_attrs, TS.countsIsArray,
        maskList_all_true t t.length le_rfl]
  · by_cases hl : l.length = t.length
    · cases inplace <;>
        simp [TS.apply_mask, TS.array_attrs, TS.countsIsArray, hl,
          maskList_all_true t t.length le_rfl, maskList_all_true l t.length (le_of_eq hl)]
    · cases inplace <;>
        simp [TS.apply_mask, TS.array_attrs, TS.countsIsArray, hl,
          maskList_all_true t t.length le_rfl]

/-- Modelled from the spec: `create_gti_mask` lives in `stingray/gti.py`,
which is not part of this source tree.  Per the spec, it computes "the
boolean mask of time-array entries falling inside at least one GTI", a GTI
being a half-open `[start, stop)` window. -/
def create_gti_mask (time : List ℚ) (gti : List (ℚ × ℚ)) : List Bool :=
  time.map (fun t => gti.any (fun g => decide (g.1 ≤ t) && decide (t < g.2)))

/-- Modelled from the spec: the per-GTI sample count that
`gti_border_bins` (in `stingray/gti.py`, not part of this source tree)
delivers as `stop_bin - start_bin` — the number of samples of `time` falling
inside the half-open GTI window. -/
def samples_in_gti (time : List ℚ) (g : ℚ × ℚ) : ℕ :=
  (time.filter (fun t => decide (g.1 ≤ t) && decide (t < g.2))).length

/-- Embedding of `StingrayTimeseries.split_by_gti`: take the object's own
`gti` when none is given; for each GTI segment in order, silently skip it
when it holds fewer than `min_points` samples, otherwise build the one-GTI
view through `apply_mask` (non-in-place, all attributes) and stamp the
single-row GTI list on the result. -/
def TS.split_by_gti (ts : TS) (gti : Option (List (ℚ × ℚ))) (min_points : ℕ) : List TS :=
  let gs := gti.getD (ts.gti.getD [])
  gs.filterMap (fun g =>
    if samples_in_gti ts.time g < min_points then none
    else
      let mask := create_gti_mask ts.time [g]
      let new_ts := ts.apply_mask mask false none
      some { new_ts with gti := some [g] })

/-- The spec's worked example object: `time = [0,1,2,3,4,10,11]` with an
extra array attribute and meta attributes. -/
def ts_example : TS :=
  { time := [0, 1, 2, 3, 4, 10, 11], counts := some [10, 20, 30, 40, 50, 60, 70],
    mjdref := 55000, gti := some [(0, 5), (10, 12)], notes := "n", dt := 0 }

/-- C3: `split_by_gti` with `min_points = 2` over the object's own GTI list
`[[0,5],[10,12]]` and `time = [0,1,2,3,4,10,11]` yields exactly two segments
in GTI order — the 5 points of `[0,5)` and the 2 points of `[10,12)` — each
carrying the single-row GTI list of its own segment, with array attributes
masked alongside and meta attributes copied; and (second conjunct) segments
with fewer than `min_points` samples are silently skipped, not errors. -/
theorem split_by_gti_example :
    ts_example.split_by_gti none 2 =
      [{ time := [0, 1, 2, 3, 4], counts := some [10, 20, 30, 40, 50],
         mjdref := 55000, gti := some [(0, 5)], notes := "n", dt := 0 },
       { time := [10, 11], counts := some [60, 70],
         mjdref := 55000, gti := some [(10, 12)], notes := "n", dt := 0 }] ∧
    ts_example.split_by_gti (some [(0, 5), (9, 11), (11, 12)]) 2 =
      [{ time := [0, 1, 2, 3, 4], counts := some [10, 20, 30, 40, 50],
         mjdref := 55000, gti := some [(0, 5)], notes := "n", dt := 0 }] := by
  constructor <;> decide

/-- The error `np.asarray(None) + time_shift` raises in `shift` when `gti` holds
`None` (the attribute itself always exists — `__init__` always assigns it). -/
def typeErrorMsg : String := "TypeError: unsupported operand type for +: NoneType and float"

/-- Embedding of `StingrayTimeseries.shift`: deep-copy (value copy), add the
shift to `time`, then — `hasattr(ts, "gti")` being always true — add it to
every GTI boundary, which raises `TypeError` when `gti` is `None`. -/
def TS.shift (ts : TS) (time_shift : ℚ) : Except String TS :=
  let ts2 := { ts with time := ts.time.map (· + time_shift) }
  match ts2.gti with
  | none => .error typeErrorMsg
  | some g =>
      .ok { ts2 with gti := some (g.map (fun p => (p.1 + time_shift, p.2 + time_shift))) }

/-- Embedding of `StingrayTimeseries.change_mjdref`: shift by
`(mjdref - new_mjdref) * 86400` seconds, then stamp the new epoch. -/
def TS.change_mjdref (ts : TS) (new_mjdref : ℚ) : Except String TS :=
  match ts.shift ((ts.mjdref - new_mjdref) * 86400) with
  | .error e => .error e
  | .ok t => .ok { t with mjdref := new_mjdref }

/-- C5 (counterexample to the claim as stated): on a time series whose `gti`
is `None` (the default when no GTI list is supplied), `shift` does not return
a shifted deep copy at all — it raises `TypeError`, because the `gti`
attribute always exists and `np.asarray(None) + shift` is attempted
unconditionally. -/
theorem shift_none_gti_cex :
    TS.shift { time := [0, 1], counts := none, mjdref := 0, gti := none,
               notes := "", dt := 0 } 10 = .error typeErrorMsg := by
  rfl

/-- C5 (amended): for every time series whose `gti` is not `None`, `shift`
is pure with respect to its input (value semantics; the source deep-copies
before mutating) and returns a copy with `time_shift` added to `time` and to
every `gti` boundary; consequently `shift s` followed by `shift (-s)`
restores `time` and `gti` exactly (exact arithmetic here — "within
floating-point tolerance" in the spec's floats). -/
theorem shift_pure_roundtrip (ts : TS) (s : ℚ) (g : List (ℚ × ℚ)) (hg : ts.gti = some g) :
    ts.shift s = .ok { ts with time := ts.time.map (· + s),
                               gti := some (g.map (fun p => (p.1 + s, p.2 + s))) } ∧
    (ts.shift s).bind (fun t2 => t2.shift (-s)) = .ok ts := by
  rcases ts with ⟨t, c, m, g0, no, d⟩
  obtain rfl : g0 = some g := hg
  have hcomp1 : ((fun x : ℚ => x + -s) ∘ fun x : ℚ => x + s) = id := by
    funext x
    simp
  have hcomp2 : ((fun p : ℚ × ℚ => (p.1 + -s, p.2 + -s)) ∘
      fun p : ℚ × ℚ => (p.1 + s, p.2 + s)) = id := by
    funext p
    simp
  constructor
  · rw [TS.shift]
  · rw [TS.shift]
    dsimp only [Except.bind]
    rw [TS.shift]
    dsimp only
    simp [List.map_map, hcomp1, hcomp2]

/-- C5 witness: the amended round-trip instantiated on a concrete series
with `gti = [[0, 5]]`. -/
theorem shift_pure_roundtrip_witness :
    TS.shift { time := [0, 1], counts := none, mjdref := 0, gti := some [(0, 5)],
               notes := "", dt := 0 } 10 =
      .ok { time := [(0:ℚ), 1].map (· + 10), counts := none, mjdref := 0,
            gti := some ([((0:ℚ), (5:ℚ))].map (fun p => (p.1 + 10, p.2 + 10))),
            notes := "", dt := 0 } ∧
    (TS.shift { time := [0, 1], counts := none, mjdref := 0, gti := some [(0, 5)],
                notes := "", dt := 0 } 10).bind (fun t2 => t2.shift (-10)) =
      .ok { time := [0, 1], counts := none, mjdref := 0, gti := some [(0, 5)],
            notes := "", dt := 0 } :=
  shift_pure_roundtrip _ 10 [(0, 5)] rfl

/-- C9: whenever the `gti` attribute holds `None` (the default when no GTI
list is supplied at construction), `shift` — and therefore `change_mjdref`,
which calls it — raises `TypeError` instead of returning a shifted copy: the
attribute always exists, so the boundary shift is attempted on the `None`
value unconditionally. -/
theorem shift_gti_none_type_error (ts : TS) (s m : ℚ) (hg : ts.gti = none) :
    ts.shift s = .error typeErrorMsg ∧ ts.change_mjdref m = .error typeErrorMsg := by
  have h1 : ts.shift s = .error typeErrorMsg := by
    rw [TS.shift]
    simp [hg]
  have h2 : ∀ u : ℚ, ts.shift u = .error typeErrorMsg := by
    intro u
    rw [TS.shift]
    simp [hg]
  refine ⟨h1, ?_⟩
  rw [TS.change_mjdref, h2]

/-- C9 witness: a series built without a GTI list (`gti = None`) makes both
`shift 10` and `change_mjdref 56000` raise `TypeError`. -/
theorem shift_gti_none_type_error_witness :
    TS.shift { time := [0, 1], counts := none, mjdref := 55000, gti := none,
               notes := "", dt := 0 } 10 = .error typeErrorMsg ∧
    TS.change_mjdref { time := [0, 1], counts := none, mjdref := 55000, gti := none,
                       notes := "", dt := 0 } 56000 = .error typeErrorMsg :=
  shift_gti_none_type_error _ 10 56000 rfl

/-! ## interpret_times -/

/-- A time payload: scalar or 1-d array (the source distinguishes them with
`isinstance(mjds, Iterable)`). -/
inductive TVal where
  | scalar (v : ℚ)
  | arr (l : List ℚ)
deriving DecidableEq

def TVal.map (f : ℚ → ℚ) : TVal → TVal
  | .scalar v => .scalar (f v)
  | .arr l => .arr (l.map f)

/-- Compute `np.all(mjds > c)` (vacuously true on an empty array, like `np.all`). -/
def TVal.allGt (c : ℚ) : TVal → Bool
  | .scalar v => decide (c < v)
  | .arr l => l.all (fun v => decide (c < v))

/-- The input representations `interpret_times` distinguishes, in the order
the source tests them: `astropy.TimeDelta`, absolute `astropy.Time` (carrying
`.mjd` values), `astropy.Quantity`, plain tuple/list/ndarray, plain
non-iterable number, and anything else. -/
inductive TimeInput where
  | tdelta (secs : TVal)
  | tabs (mjds : TVal)
  | quantity (secs : TVal)
  | arr (vals : List ℚ)
  | scalarNum (v : ℚ)
  | unknown (desc : String)

/-- Embedding of `interpret_times`: durations and quantities convert to
seconds with the epoch passed through; an absolute calendar time converts to
MJD, auto-derives the epoch from the first MJD value when the given epoch is
0 and all MJD values exceed 10000, and returns `(mjd - epoch) * 86400`;
plain arrays and scalars pass through; anything else is a fatal
`Unknown time format` error. -/
def interpret_times (time : TimeInput) (mjdref : ℚ) : Except String (TVal × ℚ) :=
  match time with
  | .tdelta s => .ok (s, mjdref)
  | .tabs mjds =>
      if mjdref = 0 ∧ mjds.allGt 10000 = true then
        match mjds with
        | .scalar v => .ok (.scalar ((v - v) * 86400), v)
        | .arr [] => .error "IndexError: index 0 is out of bounds"
        | .arr (h :: rest) =>
            .ok (.arr ((h :: rest).map (fun m => (m - h) * 86400)), h)
      else .ok (mjds.map (fun m => (m - mjdref) * 86400), mjdref)
  | .quantity s => .ok (s, mjdref)
  | .arr vals => .ok (.arr vals, mjdref)
  | .scalarNum v => .ok (.scalar v, mjdref)
  | .unknown desc => .error ("ValueError: Unknown time format: " ++ desc)

/-- C6: for an absolute calendar-time input whose MJD values all exceed
10000 and the default epoch 0, `interpret_times` auto-derives the epoch from
the first MJD value and returns `((mjd - epoch) * 86400, epoch)`; in
particular a scalar calendar time at MJD 57483 with default epoch 0 yields
`(0, 57483)`. -/
theorem interpret_times_calendar_autoepoch :
    (∀ mjds : List ℚ, mjds ≠ [] → (∀ m ∈ mjds, (10000 : ℚ) < m) →
      interpret_times (.tabs (.arr mjds)) 0 =
        .ok (.arr (mjds.map (fun m => (m - mjds.headD 0) * 86400)), mjds.headD 0)) ∧
    interpret_times (.tabs (.scalar 57483)) 0 = .ok (.scalar 0, 57483) := by
  constructor
  · intro mjds hne hall
    cases mjds with
    | nil => exact absurd rfl hne
    | cons h rest =>
      have hcond : (0 : ℚ) = 0 ∧ TVal.allGt 10000 (.arr (h :: rest)) = true := by
        refine ⟨rfl, ?_⟩
        simp only [TVal.allGt, List.all_eq_true, decide_eq_true_eq]
        exact fun v hv => hall v hv
      rw [interpret_times, if_pos hcond]
      simp
  · rw [interpret_times]
    rw [if_pos ⟨rfl, by decide⟩]
    norm_num

/-- C6 witness: the auto-epoch branch instantiated on the array
`[57483, 58000]` (both MJD values exceed 10000, default epoch 0). -/
theorem interpret_times_calendar_autoepoch_witness :
    interpret_times (.tabs (.arr [57483, 58000])) 0 =
      .ok (.arr ([(57483 : ℚ), 58000].map
            (fun m => (m - ([(57483 : ℚ), 58000].headD 0)) * 86400)),
          ([(57483 : ℚ), 58000].headD 0)) :=
  interpret_times_calendar_autoepoch.1 [57483, 58000] (by decide)
    (by
      intro m hm
      simp only [List.mem_cons, List.not_mem_nil, or_false] at hm
      rcases hm with rfl | rfl <;> norm_num)
